import Mathlib

/-!
Verification of the AetherDrive core against its specification.

The development shallowly embeds the three core modules:

* lib/encryption.js (class Encryption): password-based AES-256-CBC envelope
  codec.  The external crypto primitives (PBKDF2, the AES block permutation,
  the system RNG) are parameters of the embedding; the CBC chaining, the
  PKCS7 block padding discipline enforced by the cipher, the envelope
  framing (salt ∥ iv ∥ ciphertext) and the error paths are modelled
  concretely.
* lib/storage.js (class Storage): the mock storage provider used whenever
  the IPFS client is unavailable or errors, with its in-memory file map.
* lib/fileManager.js (class FileManager): the identity resolver mapping
  logical file ids to backend storage ids.

Bytes are modelled as lists of naturals; JavaScript Maps are modelled as
association lists with JS Map semantics (set replaces in place, delete
removes the key, values iterates in insertion order).
-/

namespace AetherDrive

/-- Byte strings (file contents, keys, salts, envelopes). -/
abbrev Bytes := List Nat

/-! ## JS Map model

`Map.set` replaces the value in place when the key exists (keeping insertion
order), `Map.get` finds the unique entry, `Map.delete` removes it,
`Array.from(map.values())` lists values in insertion order. -/

def mapSet {α : Type} : List (String × α) → String → α → List (String × α)
  | [], k, v => [(k, v)]
  | (k', v') :: rest, k, v =>
    if k' = k then (k, v) :: rest else (k', v') :: mapSet rest k v

def mapGet {α : Type} : List (String × α) → String → Option α
  | [], _ => none
  | (k', v') :: rest, k => if k' = k then some v' else mapGet rest k

def mapDelete {α : Type} : List (String × α) → String → List (String × α)
  | [], _ => []
  | (k', v') :: rest, k =>
    if k' = k then rest else (k', v') :: mapDelete rest k

theorem mapGet_mapSet_self {α : Type} (m : List (String × α)) (k : String) (v : α) :
    mapGet (mapSet m k v) k = some v := by
  induction m with
  | nil => simp [mapSet, mapGet]
  | cons kv rest ih =>
    obtain ⟨k', v'⟩ := kv
    by_cases h : k' = k
    · simp [mapSet, mapGet, h]
    · simp [mapSet, mapGet, h, ih]

theorem mapGet_mapSet_ne {α : Type} (m : List (String × α)) (k k' : String) (v : α)
    (h : k' ≠ k) : mapGet (mapSet m k v) k' = mapGet m k' := by
  induction m with
  | nil => simp [mapSet, mapGet, Ne.symm h]
  | cons kv rest ih =>
    obtain ⟨k₀, v₀⟩ := kv
    by_cases h₀ : k₀ = k
    · subst h₀
      simp [mapSet, mapGet, Ne.symm h]
    · simp [mapSet, mapGet, h₀, ih]

theorem mapGet_mapDelete_self {α : Type} (m : List (String × α)) (k : String)
    (hnd : (m.map Prod.fst).Nodup) : mapGet (mapDelete m k) k = none := by
  induction m with
  | nil => simp [mapDelete, mapGet]
  | cons kv rest ih =>
    obtain ⟨k', v'⟩ := kv
    simp only [List.map_cons, List.nodup_cons] at hnd
    by_cases h : k' = k
    · subst h
      -- the key occurs nowhere in the tail, so the lookup misses
      simp only [mapDelete, if_pos rfl]
      clear ih
      induction rest with
      | nil => simp [mapGet]
      | cons kv₂ rest₂ ih₂ =>
        obtain ⟨k₂, v₂⟩ := kv₂
        simp only [List.map_cons, List.mem_cons, List.nodup_cons] at hnd
        have hne : k₂ ≠ k' := fun hh => hnd.1 (Or.inl hh.symm)
        simp only [mapGet, if_neg (fun hh => hne hh)]
        exact ih₂ ⟨fun hm => hnd.1 (Or.inr hm), hnd.2.2⟩
    · simp [mapDelete, mapGet, h, ih hnd.2]

/-! ## Block cipher layer

lib/encryption.js drives Node's crypto module with ALGORITHM = aes-256-cbc.
The AES-256 block permutation itself is external; it enters the embedding as
a parameter pair (encBlock, decBlock), each taking the derived key and one
16-byte block.  The CBC chaining and the PKCS7 padding that
createCipheriv/createDecipheriv apply around it are modelled concretely. -/

def xorBytes (a b : Bytes) : Bytes := List.zipWith Nat.xor a b

theorem xorBytes_length (a b : Bytes) :
    (xorBytes a b).length = min a.length b.length := by
  simp [xorBytes]

theorem xorBytes_cancel : ∀ (a b : Bytes), b.length ≤ a.length →
    xorBytes a (xorBytes a b) = b
  | _, [], _ => by simp [xorBytes]
  | [], b :: bs, h => by simp at h
  | a :: as, b :: bs, h => by
    simp only [xorBytes, List.zipWith_cons_cons, List.cons.injEq]
    refine ⟨?_, xorBytes_cancel as bs (by simpa using h)⟩
    show a ^^^ (a ^^^ b) = b
    rw [← Nat.xor_assoc, Nat.xor_self, Nat.zero_xor]

/-- PKCS7 padding at block size 16, as applied by cipher.update/cipher.final:
append k copies of the byte k, where k = 16 - (len mod 16) (always 1..16). -/
def pad16 (p : Bytes) : Bytes :=
  p ++ List.replicate (16 - p.length % 16) (16 - p.length % 16)

/-- PKCS7 unpadding at block size 16, as validated by decipher.final: the
last byte k must be in 1..16 and the last k bytes must all equal k;
otherwise the cipher rejects the data (bad decrypt). -/
def unpad16 (l : Bytes) : Option Bytes :=
  match l.getLast? with
  | none => none
  | some k =>
    if 1 ≤ k ∧ k ≤ 16 ∧ k ≤ l.length ∧ (l.drop (l.length - k)).all (fun x => x = k)
    then some (l.take (l.length - k)) else none

theorem pad16_length (p : Bytes) :
    (pad16 p).length = p.length + (16 - p.length % 16) := by
  simp [pad16]

theorem pad16_length_mod (p : Bytes) : (pad16 p).length % 16 = 0 := by
  rw [pad16_length]
  omega

theorem pad16_ne_nil (p : Bytes) : pad16 p ≠ [] := by
  have h := pad16_length p
  intro hnil
  rw [hnil] at h
  simp at h
  omega

theorem unpad16_pad16 (p : Bytes) : unpad16 (pad16 p) = some p := by
  set k := 16 - p.length % 16 with hkdef
  have hk1 : 1 ≤ k := by omega
  have hk16 : k ≤ 16 := by omega
  have hrep : List.replicate k k = List.replicate (k - 1) k ++ [k] := by
    have h2 := List.replicate_succ' (k - 1) k
    rwa [show k - 1 + 1 = k by omega] at h2
  have hlast : (pad16 p).getLast? = some k := by
    rw [pad16, ← hkdef, hrep, ← List.append_assoc, List.getLast?_concat]
  have hlen : (pad16 p).length = p.length + k := by
    rw [pad16_length, ← hkdef]
  have hsub : (pad16 p).length - k = p.length := by omega
  have hdrop : (pad16 p).drop ((pad16 p).length - k) = List.replicate k k := by
    rw [hsub, pad16, ← hkdef]
    exact List.drop_left p _
  have htake : (pad16 p).take ((pad16 p).length - k) = p := by
    rw [hsub, pad16, ← hkdef]
    exact List.take_left p _
  have hall : ((pad16 p).drop ((pad16 p).length - k)).all (fun x => x = k) = true := by
    rw [hdrop]
    simp [List.all_eq_true, List.mem_replicate]
  have hcond : 1 ≤ k ∧ k ≤ 16 ∧ k ≤ (pad16 p).length ∧
      ((pad16 p).drop ((pad16 p).length - k)).all (fun x => x = k) := by
    refine ⟨hk1, hk16, by omega, hall⟩
  simp only [unpad16, hlast, if_pos hcond, htake]

/-- Structural worker for chunk16; the fuel argument only bounds the
recursion depth and never influences the result (chunk16Aux_congr). -/
def chunk16Aux : Nat → Bytes → List Bytes
  | 0, _ => []
  | _, [] => []
  | fuel + 1, l => l.take 16 :: chunk16Aux fuel (l.drop 16)

/-- Split a byte string into consecutive 16-byte chunks (the block stream the
cipher consumes). -/
def chunk16 (l : Bytes) : List Bytes := chunk16Aux l.length l

theorem chunk16Aux_nil (fuel : Nat) : chunk16Aux fuel [] = [] := by
  cases fuel <;> rfl

theorem chunk16Aux_congr : ∀ (f₁ f₂ : Nat) (l : Bytes), l.length ≤ f₁ → l.length ≤ f₂ →
    chunk16Aux f₁ l = chunk16Aux f₂ l := by
  intro f₁
  induction f₁ with
  | zero =>
    intro f₂ l h₁ _
    have : l = [] := List.length_eq_zero.mp (by omega)
    subst this
    rw [chunk16Aux_nil, chunk16Aux_nil]
  | succ f ih =>
    intro f₂ l h₁ h₂
    match f₂, l with
    | _, [] => rw [chunk16Aux_nil, chunk16Aux_nil]
    | 0, a :: l' => simp at h₂
    | g + 1, a :: l' =>
      show (a :: l').take 16 :: chunk16Aux f ((a :: l').drop 16)
        = (a :: l').take 16 :: chunk16Aux g ((a :: l').drop 16)
      have hd : ((a :: l').drop 16).length = (a :: l').length - 16 := by simp
      rw [ih g ((a :: l').drop 16) (by simp at h₁ ⊢; omega) (by simp at h₂ ⊢; omega)]

theorem chunk16_cons (l : Bytes) (h : l ≠ []) :
    chunk16 l = l.take 16 :: chunk16 (l.drop 16) := by
  obtain ⟨a, l', rfl⟩ := List.exists_cons_of_ne_nil h
  show chunk16Aux (a :: l').length (a :: l') = _
  rw [List.length_cons]
  show (a :: l').take 16 :: chunk16Aux l'.length ((a :: l').drop 16) = _
  rw [chunk16Aux_congr l'.length ((a :: l').drop 16).length ((a :: l').drop 16)
    (by simp) le_rfl]
  rfl

/-- CBC encryption over a block stream: Cᵢ = E(Pᵢ xor Cᵢ₋₁), C₋₁ = iv. -/
def cbcEncrypt (encBlock : Bytes → Bytes) : Bytes → List Bytes → List Bytes
  | _, [] => []
  | prev, b :: bs =>
    let c := encBlock (xorBytes prev b)
    c :: cbcEncrypt encBlock c bs

/-- CBC decryption over a block stream: Pᵢ = D(Cᵢ) xor Cᵢ₋₁, C₋₁ = iv. -/
def cbcDecrypt (decBlock : Bytes → Bytes) : Bytes → List Bytes → List Bytes
  | _, [] => []
  | prev, c :: cs => xorBytes prev (decBlock c) :: cbcDecrypt decBlock c cs

theorem chunk16_append (b rest : Bytes) (hb : b.length = 16) :
    chunk16 (b ++ rest) = b :: chunk16 rest := by
  have hne : b ++ rest ≠ [] := by
    intro hh
    have := congrArg List.length hh
    simp [hb] at this
  rw [chunk16_cons _ hne, List.take_left' hb, List.drop_left' hb]

theorem chunk16_flatten (bs : List Bytes) (h : ∀ b ∈ bs, b.length = 16) :
    chunk16 bs.flatten = bs := by
  induction bs with
  | nil => rfl
  | cons b bs ih =>
    rw [List.flatten_cons, chunk16_append b _ (h b (by simp)),
      ih (fun x hx => h x (by simp [hx]))]

theorem chunk16_props : ∀ (n : Nat) (l : Bytes), l.length ≤ n → l.length % 16 = 0 →
    (∀ b ∈ chunk16 l, b.length = 16) ∧ 16 * (chunk16 l).length = l.length ∧
      (chunk16 l).flatten = l := by
  intro n
  induction n with
  | zero =>
    intro l hl _
    have : l = [] := List.length_eq_zero.mp (by omega)
    subst this
    simp [chunk16, chunk16Aux]
  | succ n ih =>
    intro l hl hm
    by_cases hE : l = []
    · subst hE
      simp [chunk16, chunk16Aux]
    · have hpos : 0 < l.length := List.length_pos.mpr hE
      have h16 : 16 ≤ l.length := by omega
      have heq : chunk16 l = l.take 16 :: chunk16 (l.drop 16) := chunk16_cons l hE
      have hdl : (l.drop 16).length = l.length - 16 := by simp
      obtain ⟨ih1, ih2, ih3⟩ := ih (l.drop 16) (by omega) (by rw [hdl]; omega)
      have htl : (l.take 16).length = 16 := by
        simp [List.length_take]
        omega
      refine ⟨?_, ?_, ?_⟩
      · intro b hb
        rw [heq] at hb
        rcases List.mem_cons.mp hb with h | h
        · rw [h]; exact htl
        · exact ih1 b h
      · rw [heq, List.length_cons]
        rw [hdl] at ih2
        omega
      · rw [heq, List.flatten_cons, ih3, List.take_append_drop]

theorem cbcEncrypt_length (encBlock : Bytes → Bytes) :
    ∀ (bs : List Bytes) (prev : Bytes), (cbcEncrypt encBlock prev bs).length = bs.length := by
  intro bs
  induction bs with
  | nil => intro prev; rfl
  | cons b bs ih =>
    intro prev
    simp only [cbcEncrypt, List.length_cons, ih]

theorem cbcEncrypt_blocks_length (encBlock : Bytes → Bytes)
    (hlen : ∀ b, b.length = 16 → (encBlock b).length = 16) :
    ∀ (bs : List Bytes) (prev : Bytes), prev.length = 16 → (∀ b ∈ bs, b.length = 16) →
      ∀ c ∈ cbcEncrypt encBlock prev bs, c.length = 16 := by
  intro bs
  induction bs with
  | nil =>
    intro prev _ _ c hc
    simp [cbcEncrypt] at hc
  | cons b bs ih =>
    intro prev hprev hbs c hc
    have hxor : (xorBytes prev b).length = 16 := by
      rw [xorBytes_length, hprev, hbs b (by simp)]
      simp
    have hcb : (encBlock (xorBytes prev b)).length = 16 := hlen _ hxor
    simp only [cbcEncrypt] at hc
    rcases List.mem_cons.mp hc with h | h
    · rw [h]; exact hcb
    · exact ih _ hcb (fun x hx => hbs x (by simp [hx])) c h

theorem flatten_length_of_blocks : ∀ (cs : List Bytes), (∀ c ∈ cs, c.length = 16) →
    cs.flatten.length = 16 * cs.length := by
  intro cs
  induction cs with
  | nil => simp
  | cons c cs ih =>
    intro h
    rw [List.flatten_cons, List.length_append, h c (by simp),
      ih (fun x hx => h x (by simp [hx])), List.length_cons]
    ring

/-- Decryption inverts encryption block-stream-wise whenever the block
permutations invert each other on 16-byte blocks. -/
theorem cbcDecrypt_cbcEncrypt (encBlock decBlock : Bytes → Bytes)
    (hInv : ∀ b, b.length = 16 → decBlock (encBlock b) = b)
    (hlen : ∀ b, b.length = 16 → (encBlock b).length = 16) :
    ∀ (bs : List Bytes) (prev : Bytes), prev.length = 16 → (∀ b ∈ bs, b.length = 16) →
      cbcDecrypt decBlock prev (cbcEncrypt encBlock prev bs) = bs := by
  intro bs
  induction bs with
  | nil => intro prev _ _; rfl
  | cons b bs ih =>
    intro prev hprev hbs
    have hb : b.length = 16 := hbs b (by simp)
    have hxor : (xorBytes prev b).length = 16 := by
      rw [xorBytes_length, hprev, hb]
      simp
    simp only [cbcEncrypt, cbcDecrypt]
    rw [hInv _ hxor, xorBytes_cancel prev b (by rw [hprev, hb]),
      ih _ (hlen _ hxor) (fun x hx => hbs x (by simp [hx]))]

/-! ## Encryption module (lib/encryption.js, class Encryption)

The external crypto primitives enter as parameters: pbkdf2 stands for Node's
crypto.pbkdf2Sync, encBlock/decBlock for the keyed AES-256 block permutation
behind createCipheriv/createDecipheriv with ALGORITHM = aes-256-cbc, and the
freshSalt/freshIv arguments for the crypto.randomBytes(16) draws. -/

/-- Signature of crypto.pbkdf2Sync: password, salt, iterations, key length,
digest name. -/
abbrev Pbkdf2 := String → Bytes → Nat → Nat → String → Bytes

/-- Result of Encryption.generateKey: the derived key and the salt used. -/
structure KeySalt where
  key : Bytes
  salt : Bytes
deriving DecidableEq

/-- Encryption.generateKey(password, salt = null): use the supplied salt when
present, otherwise the fresh crypto.randomBytes(16) draw, then derive the key
with crypto.pbkdf2Sync(password, useSalt, 100000, 32, sha256). -/
def generateKey (pbkdf2 : Pbkdf2) (password : String) (salt : Option Bytes)
    (freshSalt : Bytes) : KeySalt :=
  let useSalt := salt.getD freshSalt
  ⟨pbkdf2 password useSalt 100000 32 "sha256", useSalt⟩

/-- Byte-level core of Encryption.encryptFile: the bytes written to the
output file are salt ∥ iv ∥ ciphertext, where salt and iv are fresh 16-byte
random draws, the key is derived from the password and the fresh salt, and
the ciphertext is the CBC encryption of the PKCS7-padded file content. -/
def encryptFileBytes (pbkdf2 : Pbkdf2) (encBlock : Bytes → Bytes → Bytes)
    (freshSalt freshIv : Bytes) (password : String) (fileContent : Bytes) : Bytes :=
  let ks := generateKey pbkdf2 password none freshSalt
  ks.salt ++ freshIv ++ (cbcEncrypt (encBlock ks.key) freshIv (chunk16 (pad16 fileContent))).flatten

/-- Failure modes of Encryption.decryptFile. -/
inductive DecryptError where
  /-- createDecipheriv throws on an initialization vector that is not exactly
  16 bytes (the case for every envelope shorter than 32 bytes); the outer
  handler rethrows it as a generic failure ("Failed to decrypt file: ..."). -/
  | invalidIV
  /-- decipher.update or decipher.final rejects the ciphertext (wrong key,
  corrupted data or invalid padding); the inner handler rethrows it as
  "Decryption failed, possibly due to incorrect password: ...". -/
  | badDecrypt
  /-- fs.access fails on the input path: "File not found". -/
  | fileNotFound
deriving DecidableEq

/-- Byte-level core of Encryption.decryptFile: split the envelope into
salt = bytes [0,16), iv = bytes [16,32) and ciphertext = bytes [32,..);
re-derive the key from the password and the extracted salt; run the CBC
decipher.  createDecipheriv rejects a short iv; the decipher rejects a
ciphertext that is empty or not block-aligned, and invalid padding. -/
def decryptFileBytes (pbkdf2 : Pbkdf2) (decBlock : Bytes → Bytes → Bytes)
    (password : String) (envelope : Bytes) : Except DecryptError Bytes :=
  let salt := envelope.take 16
  let iv := (envelope.drop 16).take 16
  let encryptedContent := envelope.drop 32
  let key := (generateKey pbkdf2 password (some salt) []).key
  if iv.length ≠ 16 then .error .invalidIV
  else if encryptedContent.length % 16 ≠ 0 ∨ encryptedContent.length = 0 then
    .error .badDecrypt
  else
    match unpad16 ((cbcDecrypt (decBlock key) iv (chunk16 encryptedContent)).flatten) with
    | some plaintext => .ok plaintext
    | none => .error .badDecrypt

/-- The input path ends in ".enc" (the condition tested by the regular
expression replace on the default output path). -/
def endsInEnc (s : String) : Prop :=
  s.data.reverse.take 4 = ['c', 'n', 'e', '.']

instance (s : String) : Decidable (endsInEnc s) := by
  unfold endsInEnc
  infer_instance

/-- filePath.replace applied to the pattern matching a trailing ".enc":
rewrite that suffix to ".dec", leave every other path unchanged. -/
def replaceEncDec (s : String) : String :=
  if endsInEnc s
  then String.mk ((s.data.reverse.drop 4).reverse ++ ['.', 'd', 'e', 'c'])
  else s

/-- Output path selection in Encryption.decryptFile:
options.outputPath || filePath.replace(pattern, ".dec"); an absent or empty
outputPath option is falsy in JavaScript. -/
def decryptOutputPath (filePath : String) (outputPath : Option String) : String :=
  match outputPath with
  | some p => if p = "" then replaceEncDec filePath else p
  | none => replaceEncDec filePath

/-- Encryption.decryptFile at the level of file contents: fileData is the
result of reading filePath (none when the file is absent); on success the
plaintext is written to the selected output path, which is returned. -/
def decryptFile (pbkdf2 : Pbkdf2) (decBlock : Bytes → Bytes → Bytes)
    (filePath : String) (password : String) (outputPath : Option String)
    (fileData : Option Bytes) : Except DecryptError (String × Bytes) :=
  match fileData with
  | none => .error .fileNotFound
  | some envelope =>
    match decryptFileBytes pbkdf2 decBlock password envelope with
    | .ok plaintext => .ok (decryptOutputPath filePath outputPath, plaintext)
    | .error e => .error e

/-- A stand-in for the external PBKDF2 primitive, used to instantiate the
parametric theorems on concrete inputs: 31 zero bytes followed by the
password length (a 32-byte key distinguishing passwords of different
lengths). -/
def pbkdf2Test : Pbkdf2 := fun password _ _ _ _ => List.replicate 31 0 ++ [password.length]

/-- The identity block permutation, a concrete instantiation of the cipher
parameters for witnesses. -/
def idBlock : Bytes → Bytes → Bytes := fun _ b => b

theorem cbc_ct_length (encBlock1 : Bytes → Bytes)
    (hlen1 : ∀ b, b.length = 16 → (encBlock1 b).length = 16)
    (iv p : Bytes) (hiv : iv.length = 16) :
    (cbcEncrypt encBlock1 iv (chunk16 (pad16 p))).flatten.length = (pad16 p).length := by
  obtain ⟨hb, hcnt, -⟩ := chunk16_props (pad16 p).length (pad16 p) le_rfl (pad16_length_mod p)
  rw [flatten_length_of_blocks _ (cbcEncrypt_blocks_length encBlock1 hlen1 _ iv hiv hb),
    cbcEncrypt_length, hcnt]

theorem envelope_salt (salt iv ct : Bytes) (hsalt : salt.length = 16) :
    (salt ++ iv ++ ct).take 16 = salt := by
  rw [List.append_assoc, List.take_left' hsalt]

theorem envelope_iv (salt iv ct : Bytes) (hsalt : salt.length = 16)
    (hiv : iv.length = 16) : ((salt ++ iv ++ ct).drop 16).take 16 = iv := by
  rw [List.append_assoc, List.drop_left' hsalt, List.take_left' hiv]

theorem envelope_ct (salt iv ct : Bytes) (hsalt : salt.length = 16)
    (hiv : iv.length = 16) : (salt ++ iv ++ ct).drop 32 = ct := by
  rw [List.append_assoc, show (32 : Nat) = 16 + 16 from rfl, ← List.drop_drop,
    List.drop_left' hsalt, List.drop_left' hiv]

/-- Shared round-trip core: decryptFileBytes inverts encryptFileBytes under
the same password, for any PBKDF2 primitive, any keyed block permutation
pair inverse on 16-byte blocks, and any 16-byte salt and iv draws. -/
theorem decrypt_encrypt_bytes (pbkdf2 : Pbkdf2) (encBlock decBlock : Bytes → Bytes → Bytes)
    (hInv : ∀ k b, b.length = 16 → decBlock k (encBlock k b) = b)
    (hlen : ∀ k b, b.length = 16 → (encBlock k b).length = 16)
    (freshSalt freshIv : Bytes) (hsalt : freshSalt.length = 16) (hiv : freshIv.length = 16)
    (password : String) (p : Bytes) :
    decryptFileBytes pbkdf2 decBlock password
      (encryptFileBytes pbkdf2 encBlock freshSalt freshIv password p) = Except.ok p := by
  obtain ⟨hb, hcnt, hflat⟩ := chunk16_props (pad16 p).length (pad16 p) le_rfl (pad16_length_mod p)
  set key := pbkdf2 password freshSalt 100000 32 "sha256" with hkeydef
  set ct := (cbcEncrypt (encBlock key) freshIv (chunk16 (pad16 p))).flatten with hctdef
  have henv : encryptFileBytes pbkdf2 encBlock freshSalt freshIv password p
      = freshSalt ++ freshIv ++ ct := rfl
  have hctlen : ct.length = (pad16 p).length := cbc_ct_length (encBlock key) (hlen key) freshIv p hiv
  have hsaltX : (freshSalt ++ freshIv ++ ct).take 16 = freshSalt := envelope_salt _ _ _ hsalt
  have hivX : ((freshSalt ++ freshIv ++ ct).drop 16).take 16 = freshIv := envelope_iv _ _ _ hsalt hiv
  have hctX : (freshSalt ++ freshIv ++ ct).drop 32 = ct := envelope_ct _ _ _ hsalt hiv
  have hcb := cbcEncrypt_blocks_length (encBlock key) (hlen key) (chunk16 (pad16 p)) freshIv hiv hb
  have hchunk : chunk16 ct = cbcEncrypt (encBlock key) freshIv (chunk16 (pad16 p)) := by
    rw [hctdef]
    exact chunk16_flatten _ hcb
  have hdec : cbcDecrypt (decBlock key) freshIv (cbcEncrypt (encBlock key) freshIv (chunk16 (pad16 p)))
      = chunk16 (pad16 p) :=
    cbcDecrypt_cbcEncrypt (encBlock key) (decBlock key) (hInv key) (hlen key) _ freshIv hiv hb
  have hok : unpad16 ((cbcDecrypt (decBlock key) freshIv (chunk16 ct)).flatten) = some p := by
    rw [hchunk, hdec, hflat, unpad16_pad16]
  have hmod : ct.length % 16 = 0 := by
    rw [hctlen]
    exact pad16_length_mod p
  have hne0 : ct.length ≠ 0 := by
    rw [hctlen, pad16_length]
    omega
  rw [henv]
  simp only [decryptFileBytes, hsaltX, hivX, hctX]
  rw [if_neg (by simp [hiv]), if_neg (by simp [hmod, hne0])]
  have hkeyX : (generateKey pbkdf2 password (some freshSalt) []).key = key := rfl
  rw [hkeyX, hok]

/-- C1: for every plaintext byte sequence p and every password w, decrypting
the envelope produced by encrypting p with w, using the same password w,
returns exactly p.  Stated for every PBKDF2 primitive, every keyed block
permutation pair that inverts on 16-byte blocks (as the AES-256 pair behind
createCipheriv/createDecipheriv does), and every 16-byte salt and iv draw of
the RNG. -/
theorem encryptFile_decryptFile_roundtrip (pbkdf2 : Pbkdf2)
    (encBlock decBlock : Bytes → Bytes → Bytes)
    (hInv : ∀ k b, b.length = 16 → decBlock k (encBlock k b) = b)
    (hlen : ∀ k b, b.length = 16 → (encBlock k b).length = 16)
    (freshSalt freshIv : Bytes) (hsalt : freshSalt.length = 16) (hiv : freshIv.length = 16)
    (password : String) (p : Bytes) :
    decryptFileBytes pbkdf2 decBlock password
      (encryptFileBytes pbkdf2 encBlock freshSalt freshIv password p) = Except.ok p :=
  decrypt_encrypt_bytes pbkdf2 encBlock decBlock hInv hlen freshSalt freshIv hsalt hiv password p

/-- Witness for C1: a concrete 3-byte plaintext survives the round trip. -/
theorem encryptFile_decryptFile_roundtrip_witness :
    decryptFileBytes pbkdf2Test idBlock "pw"
      (encryptFileBytes pbkdf2Test idBlock (List.replicate 16 0) (List.replicate 16 1) "pw"
        [1, 2, 3]) = Except.ok [1, 2, 3] :=
  encryptFile_decryptFile_roundtrip pbkdf2Test idBlock idBlock
    (fun _ _ _ => rfl) (fun _ _ h => h) _ _ (by simp) (by simp) "pw" [1, 2, 3]

/-- C3: every envelope shorter than 32 bytes makes decryptFileBytes fail with
the invalid-iv error (createDecipheriv rejects the short iv slice), which is
a different error from the badDecrypt failure raised when the cipher rejects
a well-formed envelope's ciphertext. -/
theorem decryptFile_short_envelope (pbkdf2 : Pbkdf2) (decBlock : Bytes → Bytes → Bytes)
    (password : String) (envelope : Bytes) (h : envelope.length < 32) :
    decryptFileBytes pbkdf2 decBlock password envelope = Except.error DecryptError.invalidIV
      ∧ DecryptError.invalidIV ≠ DecryptError.badDecrypt := by
  refine ⟨?_, by decide⟩
  have hcond : ((envelope.drop 16).take 16).length ≠ 16 := by
    rw [List.length_take, List.length_drop]
    omega
  simp only [decryptFileBytes]
  rw [if_pos hcond]

/-- Witness for C3: a 3-byte envelope is rejected with the invalid-iv error. -/
theorem decryptFile_short_envelope_witness :
    decryptFileBytes pbkdf2Test idBlock "pw" [1, 2, 3]
      = Except.error DecryptError.invalidIV :=
  (decryptFile_short_envelope pbkdf2Test idBlock "pw" [1, 2, 3] (by decide)).1

/-- C4: the envelope is exactly 32 bytes of header plus the CBC-padded
ciphertext, whose length p.length + (16 - p.length % 16) is the smallest
multiple of 16 strictly greater than p.length (covering both the aligned and
the unaligned case of the spec's padding rule). -/
theorem encryptFile_envelope_length (pbkdf2 : Pbkdf2) (encBlock : Bytes → Bytes → Bytes)
    (hlen : ∀ k b, b.length = 16 → (encBlock k b).length = 16)
    (freshSalt freshIv : Bytes) (hsalt : freshSalt.length = 16) (hiv : freshIv.length = 16)
    (password : String) (p : Bytes) :
    (encryptFileBytes pbkdf2 encBlock freshSalt freshIv password p).length
        = 32 + (p.length + (16 - p.length % 16))
      ∧ (p.length + (16 - p.length % 16)) % 16 = 0
      ∧ p.length < p.length + (16 - p.length % 16)
      ∧ ∀ m, m % 16 = 0 → p.length < m → p.length + (16 - p.length % 16) ≤ m := by
  refine ⟨?_, by omega, by omega, fun m hm hpm => by omega⟩
  set key := pbkdf2 password freshSalt 100000 32 "sha256" with hkeydef
  set ct := (cbcEncrypt (encBlock key) freshIv (chunk16 (pad16 p))).flatten with hctdef
  have henv : encryptFileBytes pbkdf2 encBlock freshSalt freshIv password p
      = freshSalt ++ freshIv ++ ct := rfl
  have hctlen : ct.length = (pad16 p).length := cbc_ct_length (encBlock key) (hlen key) freshIv p hiv
  rw [henv]
  simp only [List.length_append]
  rw [hsalt, hiv, hctlen, pad16_length]

/-- Witness for C4: a 54-byte plaintext yields a 96-byte envelope
(32 + 64, CBC padding rounding 54 up to 64). -/
theorem encryptFile_envelope_length_witness :
    (encryptFileBytes pbkdf2Test idBlock (List.replicate 16 0) (List.replicate 16 1) "pw1"
      (List.replicate 54 7)).length = 96 := by
  have h := encryptFile_envelope_length pbkdf2Test idBlock (fun _ _ hh => hh)
    (List.replicate 16 0) (List.replicate 16 1) (by simp) (by simp) "pw1" (List.replicate 54 7)
  rw [h.1]
  decide

/-- C5: generateKey is deterministic in the (password, salt) pair — in
particular independent of the RNG draw — derives its key through PBKDF2 at
the fixed parameters (100000 iterations, 32-byte key, SHA-256), returns a
32-byte key whenever the PBKDF2 primitive honors its length contract, uses
the fresh 16-byte random draw as salt when no salt is supplied, and
transfers key distinctness from the primitive: whenever PBKDF2 at those
parameters separates two passwords under a fixed salt, the derived keys
differ. -/
theorem generateKey_spec (pbkdf2 : Pbkdf2) (w w₂ : String) (s fresh fresh₂ : Bytes)
    (hfresh : fresh.length = 16)
    (hklen : ∀ pw salt, (pbkdf2 pw salt 100000 32 "sha256").length = 32)
    (hdiff : pbkdf2 w s 100000 32 "sha256" ≠ pbkdf2 w₂ s 100000 32 "sha256") :
    generateKey pbkdf2 w (some s) fresh = generateKey pbkdf2 w (some s) fresh₂
      ∧ (generateKey pbkdf2 w (some s) fresh).key = pbkdf2 w s 100000 32 "sha256"
      ∧ (generateKey pbkdf2 w (some s) fresh).key.length = 32
      ∧ (generateKey pbkdf2 w none fresh).salt = fresh
      ∧ (generateKey pbkdf2 w none fresh).salt.length = 16
      ∧ (generateKey pbkdf2 w (some s) fresh).key ≠ (generateKey pbkdf2 w₂ (some s) fresh).key :=
  ⟨rfl, rfl, hklen w s, rfl, hfresh, hdiff⟩

/-- Witness for C5: with a PBKDF2 stand-in separating the passwords "a" and
"bb", the derived keys differ under the empty salt. -/
theorem generateKey_spec_witness :
    (generateKey pbkdf2Test "a" (some []) (List.replicate 16 0)).key
      ≠ (generateKey pbkdf2Test "bb" (some []) (List.replicate 16 0)).key :=
  (generateKey_spec pbkdf2Test "a" "bb" [] (List.replicate 16 0) []
    (by simp) (fun pw salt => by simp [pbkdf2Test]) (by decide)).2.2.2.2.2

theorem replaceEncDec_of_not_enc (s : String) (h : ¬ endsInEnc s) :
    replaceEncDec s = s := by
  rw [replaceEncDec, if_neg h]

theorem replaceEncDec_ne_of_enc (s : String) (h : endsInEnc s) :
    replaceEncDec s ≠ s := by
  rw [replaceEncDec, if_pos h]
  intro heq
  have hdata : (s.data.reverse.drop 4).reverse ++ ['.', 'd', 'e', 'c'] = s.data :=
    congrArg String.data heq
  have hrev := congrArg List.reverse hdata
  rw [List.reverse_append, List.reverse_reverse,
    show List.reverse ['.', 'd', 'e', 'c'] = ['c', 'e', 'd', '.'] from rfl] at hrev
  have h4 : s.data.reverse.take 4 = ['c', 'e', 'd', '.'] := by
    rw [← hrev]
    exact List.take_left' rfl
  have hh : s.data.reverse.take 4 = ['c', 'n', 'e', '.'] := h
  rw [hh] at h4
  exact absurd h4 (by decide)

/-- C10: when options.outputPath is absent and the input path does not end
in ".enc", the default output path is the input path itself, so a successful
decryption returns the input path unchanged and writes the recovered
plaintext over the encrypted input; only a path ending in ".enc" gets a
distinct output path, with the suffix rewritten to ".dec". -/
theorem decryptFile_default_overwrites_input (pbkdf2 : Pbkdf2)
    (decBlock : Bytes → Bytes → Bytes) (filePath password : String)
    (envelope plaintext : Bytes)
    (hdec : decryptFileBytes pbkdf2 decBlock password envelope = Except.ok plaintext) :
    (¬ endsInEnc filePath →
      decryptFile pbkdf2 decBlock filePath password none (some envelope)
        = Except.ok (filePath, plaintext))
    ∧ (endsInEnc filePath →
      decryptFile pbkdf2 decBlock filePath password none (some envelope)
          = Except.ok (replaceEncDec filePath, plaintext)
        ∧ replaceEncDec filePath ≠ filePath) := by
  constructor
  · intro h
    simp only [decryptFile, hdec, decryptOutputPath, replaceEncDec_of_not_enc filePath h]
  · intro h
    exact ⟨by simp only [decryptFile, hdec, decryptOutputPath],
      replaceEncDec_ne_of_enc filePath h⟩

/-- Witness for C10: decrypting a file named "data.bin" (no ".enc" suffix)
with no outputPath option writes the plaintext back to "data.bin" itself. -/
theorem decryptFile_default_overwrites_input_witness :
    decryptFile pbkdf2Test idBlock "data.bin" "pw" none
      (some (encryptFileBytes pbkdf2Test idBlock (List.replicate 16 0) (List.replicate 16 1)
        "pw" [1, 2, 3])) = Except.ok ("data.bin", [1, 2, 3]) :=
  (decryptFile_default_overwrites_input pbkdf2Test idBlock "data.bin" "pw" _ _
    (decrypt_encrypt_bytes pbkdf2Test idBlock idBlock (fun _ _ _ => rfl) (fun _ _ h => h)
      _ _ (by simp) (by simp) "pw" [1, 2, 3])).1 (by decide)

/-! ## Storage module (lib/storage.js, class Storage)

Without the ipfs-http-client package (or when an IPFS call errors), Storage
serves every call from its mock provider: an in-memory files Map plus a copy
under tempDir.  The filesystem copy, original path and creation date are I/O
bookkeeping not consumed by the modelled operations and are elided; ipfsCat
stands for the external ipfs.cat stream (none = the IPFS call errored, which
triggers the per-call fallback to the mock). -/

/-- Entry of the mock storage's files Map (the fields the modelled paths
consume). -/
structure MockFile where
  id : String
  content : Bytes
  size : Nat
deriving DecidableEq

/-- JavaScript a || b over an optional string: b when a is undefined or the
empty string (both falsy). -/
def jsOr (a : Option String) (b : String) : String :=
  match a with
  | some s => if s = "" then b else s
  | none => b

/-- Storage._generateMockFileId: "mock-" plus the first 8 hex digits of the
SHA-256 of the content; the hash itself is external, entering as the
sha256hex8 parameter. -/
def generateMockFileId (sha256hex8 : Bytes → String) (content : Bytes) : String :=
  "mock-" ++ sha256hex8 content

/-- Storage._mockUploadFile: the id is options.fileId when supplied, else
the content-hash id; the content is stored in the files Map under that id,
which is returned. -/
def mockUploadFile (sha256hex8 : Bytes → String) (files : List (String × MockFile))
    (suppliedId : Option String) (fileContent : Bytes) :
    String × List (String × MockFile) :=
  let fileId := jsOr suppliedId (generateMockFileId sha256hex8 fileContent)
  (fileId, mapSet files fileId ⟨fileId, fileContent, fileContent.length⟩)

/-- Bytes of an ASCII string (the fabricated mock download content). -/
def strBytes (s : String) : Bytes := s.data.map Char.toNat

/-- Error kinds of the storage capability contract in the spec.  The code's
download paths never construct notFound: that is what C2 is about. -/
inductive StorageError where
  | notFound
  | other (msg : String)
deriving DecidableEq

/-- Content written by Storage._mockDownloadFile to the destination: the
stored bytes when the id is in the files Map, otherwise the fabricated
placeholder text. -/
def mockDownloadContent (files : List (String × MockFile)) (fileId : String) : Bytes :=
  match mapGet files fileId with
  | some info => info.content
  | none => strBytes ("Mock content for file ID: " ++ fileId)

/-- Storage._mockDownloadFile: always succeeds, writing mockDownloadContent
to the destination and returning the destination path. -/
def mockDownloadFile (files : List (String × MockFile)) (fileId destination : String) :
    Except StorageError (String × Bytes) :=
  Except.ok (destination, mockDownloadContent files fileId)

/-- Storage.downloadFile for storageType ipfs: with a live IPFS client a
successful ipfs.cat supplies the bytes; an IPFS error falls back to the mock
download for this single call; with usingMock the mock serves directly.  The
outer catch would wrap an error as "Failed to download file: ...", but no
reachable path errors. -/
def storageDownloadFile (ipfsCat : String → Option Bytes) (usingMock : Bool)
    (files : List (String × MockFile)) (fileId destination : String) :
    Except StorageError (String × Bytes) :=
  if usingMock then mockDownloadFile files fileId destination
  else
    match ipfsCat fileId with
    | some content => Except.ok (destination, content)
    | none => mockDownloadFile files fileId destination

/-- C2 counterexample: downloading an id that was never uploaded succeeds
with fabricated placeholder bytes instead of failing with NotFound. -/
theorem downloadFile_unknown_id_succeeds :
    storageDownloadFile (fun _ => none) true [] "ghost" "/tmp/out"
      = Except.ok ("/tmp/out", strBytes ("Mock content for file ID: " ++ "ghost")) := rfl

/-- C2 amended: the download operation never fails.  It returns exactly the
bytes previously uploaded under the id when the id is in the mock store, and
for an id never uploaded it succeeds with the placeholder content "Mock
content for file ID: <id>" rather than failing with NotFound. -/
theorem storageDownloadFile_spec (sha256hex8 : Bytes → String)
    (files : List (String × MockFile)) (suppliedId : Option String)
    (content : Bytes) (destination fileId : String) :
    storageDownloadFile (fun _ => none) true
        (mockUploadFile sha256hex8 files suppliedId content).2
        (mockUploadFile sha256hex8 files suppliedId content).1 destination
      = Except.ok (destination, content)
    ∧ (mapGet files fileId = none →
        storageDownloadFile (fun _ => none) true files fileId destination
          = Except.ok (destination, strBytes ("Mock content for file ID: " ++ fileId))) := by
  constructor
  · simp [storageDownloadFile, mockDownloadFile, mockDownloadContent, mockUploadFile,
      mapGet_mapSet_self]
  · intro h
    simp [storageDownloadFile, mockDownloadFile, mockDownloadContent, h]

/-- Witness for the amended C2: a concrete upload is downloaded back intact,
and a never-uploaded id yields the placeholder. -/
theorem storageDownloadFile_spec_witness :
    storageDownloadFile (fun _ => none) true
        (mockUploadFile (fun _ => "11112222") [] none [9, 8, 7]).2
        (mockUploadFile (fun _ => "11112222") [] none [9, 8, 7]).1 "/tmp/d"
      = Except.ok ("/tmp/d", [9, 8, 7])
    ∧ storageDownloadFile (fun _ => none) true [] "never-uploaded" "/tmp/d"
      = Except.ok ("/tmp/d", strBytes ("Mock content for file ID: " ++ "never-uploaded")) :=
  ⟨(storageDownloadFile_spec (fun _ => "11112222") [] none [9, 8, 7] "/tmp/d" "x").1,
   (storageDownloadFile_spec (fun _ => "11112222") [] none [9, 8, 7] "/tmp/d"
      "never-uploaded").2 rfl⟩

/-! ## FileManager module (src/lib/fileManager.js, class FileManager)

The resolver owns an in-memory fileRegistry Map from logical file id to File
Record.  The storage provider is external to this class: its awaited calls
enter the embedding as parameters (accessOk for fs.access, storageResult
for storage.uploadFile, storageDownload/storageDelete for the provider
functions, genId for the uuidv4() draw, fileSize for fs.stat, now for the
Date constructor). -/

/-- File Record stored in FileManager's fileRegistry. -/
structure FileRecord where
  id : String
  storageId : String
  name : String
  size : Nat
  contentType : String
  createdAt : Nat
  encrypted : Bool
deriving DecidableEq

/-- Options consumed by FileManager.uploadFile. -/
structure UploadOptions where
  fileId : Option String
  contentType : Option String
  encrypted : Bool
deriving DecidableEq

abbrev Registry := List (String × FileRecord)

/-- path.basename as used on upload: the component after the last slash. -/
def basename (p : String) : String := ((p.splitOn "/").getLast?).getD p

/-- FileManager.uploadFile: check the source file, delegate the byte
transfer to the storage provider, and only after that call has returned
choose the logical id — options.fileId when supplied (JS ||), else the fresh
uuid — and insert the File Record; any error is rethrown as "Failed to
upload file: ..." with the registry untouched. -/
def uploadFile (registry : Registry) (accessOk : Except String Unit)
    (storageResult : Except String String) (genId filePath : String)
    (fileSize now : Nat) (options : UploadOptions) :
    Except String String × Registry :=
  match accessOk with
  | Except.error e => (Except.error ("Failed to upload file: " ++ e), registry)
  | Except.ok _ =>
    match storageResult with
    | Except.error e => (Except.error ("Failed to upload file: " ++ e), registry)
    | Except.ok storageId =>
      let fileId := jsOr options.fileId genId
      (Except.ok fileId,
        mapSet registry fileId
          ⟨fileId, storageId, basename filePath, fileSize,
            jsOr options.contentType "application/octet-stream", now, options.encrypted⟩)

/-- FileManager.downloadFile: look up the registry; delegate to the storage
provider with the stored storageId when the id is registered, and with the
given id itself when it is not (pass-through); a storage error is rethrown
as "Failed to download file: ...". -/
def downloadFile (registry : Registry)
    (storageDownload : String → String → Except String String)
    (fileId destination : String) : Except String String :=
  match mapGet registry fileId with
  | none =>
    match storageDownload fileId destination with
    | Except.ok d => Except.ok d
    | Except.error e => Except.error ("Failed to download file: " ++ e)
  | some info =>
    match storageDownload info.storageId destination with
    | Except.ok d => Except.ok d
    | Except.error e => Except.error ("Failed to download file: " ++ e)

/-- FileManager.deleteFile: same lookup-or-pass-through resolution; on the
registered path the File Record is removed after the storage call returns;
a storage error is rethrown with the registry untouched. -/
def deleteFile (registry : Registry) (storageDelete : String → Except String Bool)
    (fileId : String) : Except String Bool × Registry :=
  match mapGet registry fileId with
  | none =>
    match storageDelete fileId with
    | Except.ok b => (Except.ok b, registry)
    | Except.error e => (Except.error ("Failed to delete file: " ++ e), registry)
  | some info =>
    match storageDelete info.storageId with
    | Except.ok b => (Except.ok b, mapDelete registry fileId)
    | Except.error e => (Except.error ("Failed to delete file: " ++ e), registry)

/-- FileManager.listFiles: Array.from(this.fileRegistry.values()). -/
def listFiles (registry : Registry) : List FileRecord := registry.map (fun p => p.2)

theorem mem_of_mem_mapDelete {α : Type} (m : List (String × α)) (k : String)
    (p : String × α) (hp : p ∈ mapDelete m k) : p ∈ m := by
  induction m with
  | nil => simp [mapDelete] at hp
  | cons kv rest ih =>
    obtain ⟨k', v'⟩ := kv
    by_cases h : k' = k
    · simp only [mapDelete, if_pos h] at hp
      exact List.mem_cons_of_mem _ hp
    · simp only [mapDelete, if_neg h] at hp
      rcases List.mem_cons.mp hp with hh | hh
      · exact hh ▸ List.mem_cons_self _ _
      · exact List.mem_cons_of_mem _ (ih hh)

theorem mapDelete_key_ne {α : Type} (m : List (String × α)) (k : String)
    (hnd : (m.map Prod.fst).Nodup) (p : String × α) (hp : p ∈ mapDelete m k) :
    p.1 ≠ k := by
  induction m with
  | nil => simp [mapDelete] at hp
  | cons kv rest ih =>
    obtain ⟨k', v'⟩ := kv
    simp only [List.map_cons, List.nodup_cons] at hnd
    by_cases h : k' = k
    · subst h
      simp only [mapDelete, if_pos rfl] at hp
      intro hpk
      exact hnd.1 (hpk ▸ List.mem_map_of_mem Prod.fst hp)
    · simp only [mapDelete, if_neg h] at hp
      rcases List.mem_cons.mp hp with hh | hh
      · rw [hh]
        exact h
      · exact ih hnd.2 hh

/-- C6: if the backend upload call fails, the failure propagates to the
caller (wrapped with the attempted action) and the file-record map is left
unchanged — no partial File Record is inserted, because insertion happens
only after the backend call has succeeded. -/
theorem uploadFile_backend_failure (registry : Registry) (e genId filePath : String)
    (fileSize now : Nat) (options : UploadOptions) :
    uploadFile registry (Except.ok ()) (Except.error e) genId filePath fileSize now options
      = (Except.error ("Failed to upload file: " ++ e), registry) := rfl

/-- C7: downloadFile never raises a resolver-level unknown-id error.  For an
id absent from the registry it delegates to the storage capability with the
id itself (pass-through) — succeeding when storage succeeds and propagating
only the wrapped storage error otherwise — and for a registered id it
delegates with the stored storageId. -/
theorem downloadFile_pass_through (registry : Registry)
    (storageDownload : String → String → Except String String)
    (fileId destination : String) (info : FileRecord) (d : String) :
    (mapGet registry fileId = none →
        storageDownload fileId destination = Except.ok d →
        downloadFile registry storageDownload fileId destination = Except.ok d)
    ∧ (mapGet registry fileId = none → ∀ e,
        storageDownload fileId destination = Except.error e →
        downloadFile registry storageDownload fileId destination
          = Except.error ("Failed to download file: " ++ e))
    ∧ (mapGet registry fileId = some info →
        storageDownload info.storageId destination = Except.ok d →
        downloadFile registry storageDownload fileId destination = Except.ok d) := by
  refine ⟨fun h hs => ?_, fun h e hs => ?_, fun h hs => ?_⟩ <;>
    simp [downloadFile, h, hs]

/-- Witness for C7: downloading a raw backend id on an empty registry
delegates straight to storage and succeeds. -/
theorem downloadFile_pass_through_witness :
    downloadFile [] (fun _ dest => Except.ok dest) "raw-backend-id" "/tmp/f"
      = Except.ok "/tmp/f" :=
  (downloadFile_pass_through [] (fun _ dest => Except.ok dest) "raw-backend-id" "/tmp/f"
    ⟨"x", "sx", "n", 0, "ct", 0, false⟩ "/tmp/f").1 rfl rfl

/-- C8: after deleteFile succeeds on a registered id, the File Record keyed
by that id is removed: the id no longer resolves and no entry of a
subsequent listFiles carries it (for a well-formed registry with unique keys
matching the records' id fields, the shape the resolver maintains). -/
theorem deleteFile_removes_record (registry : Registry)
    (storageDelete : String → Except String Bool) (fileId : String)
    (info : FileRecord) (b : Bool)
    (hreg : mapGet registry fileId = some info)
    (hsd : storageDelete info.storageId = Except.ok b)
    (hnd : (registry.map Prod.fst).Nodup)
    (hwf : ∀ p ∈ registry, (Prod.snd p).id = Prod.fst p) :
    (deleteFile registry storageDelete fileId).1 = Except.ok b
    ∧ mapGet (deleteFile registry storageDelete fileId).2 fileId = none
    ∧ ∀ r ∈ listFiles (deleteFile registry storageDelete fileId).2, r.id ≠ fileId := by
  have hres : deleteFile registry storageDelete fileId
      = (Except.ok b, mapDelete registry fileId) := by
    simp [deleteFile, hreg, hsd]
  refine ⟨by rw [hres], ?_, ?_⟩
  · rw [hres]
    exact mapGet_mapDelete_self registry fileId hnd
  · rw [hres]
    intro r hr
    obtain ⟨p, hp, hpr⟩ := List.mem_map.mp hr
    have hpm : p ∈ registry := mem_of_mem_mapDelete registry fileId p hp
    have hk : p.1 ≠ fileId := mapDelete_key_ne registry fileId hnd p hp
    rw [← hpr, hwf p hpm]
    exact hk

/-- Witness for C8: deleting the only registered id empties the listing. -/
theorem deleteFile_removes_record_witness :
    mapGet (deleteFile [("id1", ⟨"id1", "s1", "n", 3, "ct", 0, false⟩)]
      (fun _ => Except.ok true) "id1").2 "id1" = none :=
  (deleteFile_removes_record [("id1", ⟨"id1", "s1", "n", 3, "ct", 0, false⟩)]
    (fun _ => Except.ok true) "id1" ⟨"id1", "s1", "n", 3, "ct", 0, false⟩ true
    rfl rfl (by simp) (by simp)).2.1

/-- C9: uploadFile returns exactly the supplied id when options.fileId is
given, and uploading the same file once without a supplied id (fresh uuid
genId) and once with the id "custom" leaves two distinct entries in
listFiles. -/
theorem uploadFile_supplied_id (genId genId₂ storageId storageId₂ filePath : String)
    (fileSize now : Nat) (hX : genId ≠ "custom") :
    (uploadFile [] (Except.ok ()) (Except.ok storageId) genId filePath fileSize now
        ⟨none, none, false⟩).1 = Except.ok genId
    ∧ (uploadFile
        (uploadFile [] (Except.ok ()) (Except.ok storageId) genId filePath fileSize now
          ⟨none, none, false⟩).2
        (Except.ok ()) (Except.ok storageId₂) genId₂ filePath fileSize now
        ⟨some "custom", none, false⟩).1 = Except.ok "custom"
    ∧ (listFiles (uploadFile
        (uploadFile [] (Except.ok ()) (Except.ok storageId) genId filePath fileSize now
          ⟨none, none, false⟩).2
        (Except.ok ()) (Except.ok storageId₂) genId₂ filePath fileSize now
        ⟨some "custom", none, false⟩).2).map FileRecord.id = [genId, "custom"] := by
  refine ⟨rfl, by simp [uploadFile, jsOr], ?_⟩
  simp [uploadFile, jsOr, mapSet, listFiles, hX]

/-- Witness for C9: with the fresh uuid "X", the two uploads list the ids
"X" and "custom". -/
theorem uploadFile_supplied_id_witness :
    (listFiles (uploadFile
        (uploadFile [] (Except.ok ()) (Except.ok "s1") "X" "a.txt" 3 0
          ⟨none, none, false⟩).2
        (Except.ok ()) (Except.ok "s2") "Y" "a.txt" 3 0
        ⟨some "custom", none, false⟩).2).map FileRecord.id = ["X", "custom"] :=
  (uploadFile_supplied_id "X" "Y" "s1" "s2" "a.txt" 3 0 (by decide)).2.2

end AetherDrive
